import Mathlib

/-
Shallow embedding of the simulation core of a single-file 3D tower-defense
game (React + react-three-fiber).  The source keeps its game state in React
state hooks of the `App` component plus per-component mutable refs; here the
App-level state is an explicit `GameState` record and the per-component refs
(enemy path progress, tower cooldown accumulator, projectile position) are
explicit parameters threaded through the corresponding per-frame update
functions.  Real-number quantities are modelled as rationals; the source
compares Euclidean distances (computed with a square root) against
non-negative radii, which is encoded equivalently by comparing squared
distances: for d = sqrt(q) with q >= 0 one has d <= r iff (0 <= r and
q <= r^2), and d < r iff (0 < r and q < r^2).
-/

namespace TowerDefense

/-- Vec3 models a JS `[x, y, z]` coordinate triple with rational coordinates. -/
abbrev Vec3 : Type := ℚ × ℚ × ℚ

/-- Source: `function lerp(a, b, t) { return a + (b - a) * t }`. -/
def lerp (a b t : ℚ) : ℚ := a + (b - a) * t

/-- Source: `lerpVec`, componentwise linear interpolation. -/
def lerpVec (a b : Vec3) (t : ℚ) : Vec3 :=
  (lerp a.1 b.1 t, lerp a.2.1 b.2.1 t, lerp a.2.2 b.2.2 t)

/-- Squared 3D Euclidean distance.  The source `dist` returns the square
root of this quantity; all uses of `dist` in the source are comparisons
against radii, encoded here on squares (see the header comment). -/
def distSq (a b : Vec3) : ℚ :=
  (a.1 - b.1) ^ 2 + (a.2.1 - b.2.1) ^ 2 + (a.2.2 - b.2.2) ^ 2

/-- Encodes `dist a b <= r` of the source (sqrt-based) exactly. -/
def distLe (a b : Vec3) (r : ℚ) : Bool :=
  decide (0 ≤ r ∧ distSq a b ≤ r ^ 2)

/-- Squared planar (x,z) distance, used by the projectile arrival test. -/
def planarDistSq (a b : Vec3) : ℚ :=
  (a.1 - b.1) ^ 2 + (a.2.2 - b.2.2) ^ 2

/-- Encodes the source planar comparison `sqrt(dx^2+dz^2) < r` exactly. -/
def planarDistLt (a b : Vec3) (r : ℚ) : Bool :=
  decide (0 < r ∧ planarDistSq a b < r ^ 2)

/-- Source: the fixed waypoint polyline `PATH` (five waypoints, four segments). -/
def PATH : List Vec3 :=
  [(-8, 0, 8), (-4, 0, 4), (0, 0, 0), (4, 0, -4), (8, 0, -8)]

/-- Tower configuration record, one row of the source `TOWER_TYPES` table.
The `splash` field is `none` for rows that do not define `splash` in the
source (JS `undefined`). -/
structure TowerConfig where
  cost : Int
  range : ℚ
  dmg : Int
  fireRate : ℚ
  splash : Option ℚ
  deriving DecidableEq

/-- Source table `TOWER_TYPES`, keyed by the tower kind string.  Unknown
kinds yield `none` (JS `undefined`). -/
def TOWER_TYPES (k : String) : Option TowerConfig :=
  if k = "basic" then some ⟨30, 35/10, 1, 8/10, none⟩
  else if k = "fast" then some ⟨45, 3, 1, 45/100, none⟩
  else if k = "sniper" then some ⟨85, 9, 5, 15/10, none⟩
  else if k = "cannon" then some ⟨100, 55/10, 2, 12/10, some (22/10)⟩
  else none

/-- Source: `config.splash || 0` (a missing or zero splash reads as 0). -/
def configSplash (cfg : TowerConfig) : ℚ :=
  match cfg.splash with
  | none => 0
  | some x => if x = 0 then 0 else x

/-- Enemy record of the App state: `{id, type, hp}`. -/
structure Enemy where
  id : String
  type : String
  hp : Int
  deriving DecidableEq

/-- Projectile record of the App state: `{id, from, targetId, dmg, splash}`.
The source field `from` is named `fromPos` here (`from` is a Lean keyword). -/
structure Projectile where
  id : String
  fromPos : Vec3
  targetId : String
  dmg : Int
  splash : ℚ
  deriving DecidableEq

/-- Tower record of the App state: `{id, pos, type, level, dmgBonus, rangeBonus}`. -/
structure Tower where
  id : String
  pos : Vec3
  type : String
  level : Nat
  dmgBonus : Int
  rangeBonus : ℚ
  deriving DecidableEq

/-- One entry of the shared `enemyPositionsRef` map: `{ pos, hp }`. -/
structure CacheEntry where
  pos : Vec3
  hp : Int
  deriving DecidableEq

/-- The shared `enemyPositionsRef.current` JS `Map`, as an association list
keyed by enemy id.  Lookup takes the first entry with the given key; the
update and delete operations below preserve that lookup semantics of the JS
`Map` (no theorem in this file depends on the iteration order of the map). -/
abbrev PosCache : Type := List (String × CacheEntry)

/-- Lookup in the position cache (`enemyPositionsRef.current.get id`). -/
def cacheGet : PosCache → String → Option CacheEntry
  | [], _ => none
  | (k, v) :: rest, i => if k = i then some v else cacheGet rest i

/-- Deletion from the position cache (`enemyPositionsRef.current.delete id`). -/
def cacheErase (c : PosCache) (i : String) : PosCache :=
  c.filter (fun e => ¬ e.1 = i)

/-- Insertion or overwrite (`enemyPositionsRef.current.set id entry`). -/
def cacheSet (c : PosCache) (i : String) (v : CacheEntry) : PosCache :=
  (i, v) :: cacheErase c i

/-- The App-level game state: the React state hooks of `App` plus the shared
position cache ref. -/
structure GameState where
  enemies : List Enemy
  cache : PosCache
  projectiles : List Projectile
  towers : List Tower
  money : Int
  lives : Int
  wave : Int
  deriving DecidableEq

/-- Initial state of the App component (`useState` initialisers). -/
def initState : GameState :=
  { enemies := [], cache := [], projectiles := [], towers := [],
    money := 100, lives := 10, wave := 0 }

/-- Source: `spawnEnemy(type, hp)` appends a fresh enemy to the live set.
The randomly generated id string of the source is taken as a parameter. -/
def spawnEnemy (id type_ : String) (hp : Int) (s : GameState) : GameState :=
  { s with enemies := s.enemies ++ [{ id := id, type := type_, hp := hp }] }

/-- Source: `handleEnemyReachEnd(id)` removes the enemy from the live set,
deletes its cache entry and decrements lives. -/
def handleEnemyReachEnd (id : String) (s : GameState) : GameState :=
  { s with enemies := s.enemies.filter (fun e => ¬ e.id = id),
           cache := cacheErase s.cache id,
           lives := s.lives - 1 }

/-- Source: the speed selection in `EnemyMesh`:
`(type === 'fast') ? 1.2 : (type === 'cannon' ? 0.45 : 0.7)`. -/
def baseSpeed (type_ : String) : ℚ :=
  if type_ = "fast" then 12/10 else if type_ = "cannon" then 45/100 else 7/10

/-- One per-frame update of `EnemyMesh` (its `useFrame` body).  The mutable
ref `progress.current` is the explicit `progress` argument; the returned pair
is the new progress value and the new App state.  On reaching the end the
source deletes the cache entry and then calls `onReachEnd` (which deletes it
again and removes the enemy and decrements lives); otherwise it publishes the
interpolated position together with the hp prop into the cache. -/
def enemyFrame (id type_ : String) (hp : Int) (progress dt : ℚ)
    (s : GameState) : ℚ × GameState :=
  let p := progress + baseSpeed type_ * dt
  let idx : Int := Int.floor p
  if (PATH.length : Int) - 1 ≤ idx then
    (p, handleEnemyReachEnd id { s with cache := cacheErase s.cache id })
  else
    let t := p - idx
    let pos := lerpVec (PATH.getD idx.toNat (0, 0, 0))
      (PATH.getD (idx.toNat + 1) (0, 0, 0)) t
    (p, { s with cache := cacheSet s.cache id { pos := pos, hp := hp } })

/-- Projectile spawn request emitted by a tower
(`spawnProjectile(tower.id, tower.pos, closest.id, dmg, splash)`). -/
structure SpawnReq where
  fromTowerId : String
  fromPos : Vec3
  targetId : String
  dmg : Int
  splash : ℚ
  deriving DecidableEq

/-- The target scan of `TowerMesh`: iterate over all cache entries, keep the
nearest one within `range` (base range plus range bonus).  The source
compares square-root distances; here the accumulator carries the squared
distance of the current best (`minD` starts as `Infinity`, modelled by the
`none` accumulator). -/
def findClosest (towerPos : Vec3) (range : ℚ) (cache : PosCache) :
    Option (String × Vec3 × Int) :=
  (cache.foldl
    (fun (acc : Option (String × Vec3 × Int) × Option ℚ) entry =>
      let dsq := distSq entry.2.pos towerPos
      let closer : Bool :=
        match acc.2 with
        | none => true
        | some mdsq => decide (dsq < mdsq)
      if distLe entry.2.pos towerPos range ∧ closer = true then
        (some (entry.1, entry.2.pos, entry.2.hp), some dsq)
      else acc)
    (none, none)).1

/-- One per-frame update of `TowerMesh` (its `useFrame` body).  The mutable
ref `lastShot.current` is the explicit `lastShot` argument; the result is the
new accumulator value and an optional projectile-spawn request.  The config
falls back to the basic row (`TOWER_TYPES[tower.type] || TOWER_TYPES.basic`);
the damage uses the source fallbacks `(config.dmg || 1) + (tower.dmgBonus || 0)`. -/
def towerFrame (t : Tower) (lastShot dt : ℚ) (cache : PosCache) :
    ℚ × Option SpawnReq :=
  let lastShot1 := lastShot + dt
  let config := (TOWER_TYPES t.type).getD ⟨30, 35/10, 1, 8/10, none⟩
  let fireInterval := max (12/100) config.fireRate
  if lastShot1 < fireInterval then (lastShot1, none)
  else
    match findClosest t.pos (config.range + t.rangeBonus) cache with
    | some (cid, _, _) =>
      (0, some { fromTowerId := t.id, fromPos := t.pos, targetId := cid,
                 dmg := (if config.dmg = 0 then 1 else config.dmg) + t.dmgBonus,
                 splash := configSplash config })
    | none => (lastShot1, none)

/-- Source: `spawnProjectile` appends a projectile record to the App state;
the random id string is a parameter. -/
def spawnProjectile (id : String) (fromPos : Vec3) (targetId : String)
    (dmg : Int) (splash : ℚ) (s : GameState) : GameState :=
  { s with projectiles := s.projectiles ++
      [{ id := id, fromPos := fromPos, targetId := targetId,
         dmg := dmg, splash := splash }] }

/-- Payload of an `onHit` hit report:
`{ targetId, splash, hitPos }` from `ProjectileMesh`. -/
structure HitInfo where
  targetId : String
  splash : ℚ
  hitPos : Vec3
  deriving DecidableEq

/-- One per-frame update of `ProjectileMesh` (its `useFrame` body), reduced
to its report decision.  The target lookup happens before any movement; when
the target is gone the frame reports `onHit(id, null)` (encoded `some none`).
Otherwise the mesh moves along the normalized direction (an irrational
square-root computation irrelevant to every claim below); the position after
that movement is the `posAfterMove` argument, and the arrival test compares
the planar distance of that position to the cached target position against
0.6.  A `none` result means no report was emitted this frame. -/
def projectileFrame (pr : Projectile) (posAfterMove : Vec3) (cache : PosCache) :
    Option (Option HitInfo) :=
  match cacheGet cache pr.targetId with
  | none => some none
  | some target =>
    if planarDistLt posAfterMove target.pos (6/10) then
      some (some { targetId := pr.targetId, splash := pr.splash,
                   hitPos := posAfterMove })
    else none

/-- The damage value used by `handleProjectileHit`:
`(projectiles.find(p => p.id === projId)?.dmg) || 1`.  The list searched is
the `projectiles` state captured by the handler closure at call time. -/
def findProj : List Projectile → String → Option Projectile
  | [], _ => none
  | p :: rest, i => if p.id = i then some p else findProj rest i

/-- Source expression `(projectiles.find(p=>p.id===projId)?.dmg) || 1`. -/
def hitDamage (projId : String) (projs : List Projectile) : Int :=
  match findProj projs projId with
  | some p => if p.dmg = 0 then 1 else p.dmg
  | none => 1

/-- The `byId.get(targetId)` lookup of `handleProjectileHit`.  The JS `Map`
built from `updated.map(e => [e.id, e])` keeps the last pair for a duplicated
key, so this returns the last enemy with the given id. -/
def byIdGet : List Enemy → String → Option Enemy
  | [], _ => none
  | e :: rest, i =>
    match byIdGet rest i with
    | some x => some x
    | none => if e.id = i then some e else none

/-- Direct-damage step of `handleProjectileHit`: `target.hp -= d` mutates the
one object returned by `byId.get(targetId)`, i.e. the last list element with
the target id; every other element is untouched. -/
def subLast (i : String) (d : Int) : List Enemy → List Enemy
  | [] => []
  | e :: rest =>
    if e.id = i ∧ byIdGet rest i = none then
      { e with hp := e.hp - d } :: rest
    else e :: subLast i d rest

/-- Splash step of `handleProjectileHit`: when `splash` is truthy, every
enemy of the updated list whose cache entry exists and lies within `splash`
of the hit position loses `d` more hit points (`hitPos` is always a concrete
position in a hit report, so its truthiness test always passes). -/
def applySplash (d : Int) (sp : ℚ) (hitPos : Vec3) (cache : PosCache)
    (l : List Enemy) : List Enemy :=
  if ¬ sp = 0 then
    l.map (fun e =>
      match cacheGet cache e.id with
      | none => e
      | some posObj =>
        if distLe posObj.pos hitPos sp then { e with hp := e.hp - d } else e)
  else l

/-- Source: `handleProjectileHit(projId, hitInfo)`.  The projectile is
removed; a null report does nothing else; otherwise direct damage, splash
damage, then the kill filter: dead enemies are dropped, their cache entries
evicted, and 10 currency per kill is credited in one addition. -/
def handleProjectileHit (projId : String) (hitInfo : Option HitInfo)
    (s : GameState) : GameState :=
  let projs1 := s.projectiles.filter (fun p => ¬ p.id = projId)
  match hitInfo with
  | none => { s with projectiles := projs1 }
  | some info =>
    match byIdGet s.enemies info.targetId with
    | none => { s with projectiles := projs1 }
    | some _ =>
      let d := hitDamage projId s.projectiles
      let afterSplash :=
        applySplash d info.splash info.hitPos s.cache
          (subLast info.targetId d s.enemies)
      let dead := afterSplash.filter (fun e => e.hp ≤ 0)
      { s with projectiles := projs1,
               enemies := afterSplash.filter (fun e => ¬ e.hp ≤ 0),
               cache := dead.foldl (fun c e => cacheErase c e.id) s.cache,
               money := s.money + 10 * dead.length }

/-- JavaScript `Math.round` on the exact rational value (half rounds up). -/
def jsRound (q : ℚ) : Int := Int.floor (q + 1/2)

/-- Upgrade cost of the source: `Math.round(cfg.cost * Math.pow(1.6, t.level))`. -/
def upgradeCost (cfg : TowerConfig) (level : Nat) : Int :=
  jsRound ((cfg.cost : ℚ) * (8/5) ^ level)

/-- Body of the `towers.map` callback of `upgradeTower` for one tower,
returning the (possibly upgraded) tower together with the amount charged to
the money state by this iteration.  A tower whose kind is missing from
`TOWER_TYPES` makes the source dereference `undefined` and throw, modelled
by `none`. -/
def upgradeOne (money : Int) (towerId : String) (t : Tower) :
    Option (Tower × Int) :=
  if ¬ t.id = towerId then some (t, 0)
  else
    match TOWER_TYPES t.type with
    | none => none
    | some cfg =>
      let cost := upgradeCost cfg t.level
      if money < cost then some (t, 0)
      else
        some ({ t with
                level := t.level + 1,
                dmgBonus := t.dmgBonus + jsRound ((cfg.dmg : ℚ) * (6/10)),
                rangeBonus := t.rangeBonus + 8/10 }, cost)

/-- The full `towers.map` traversal of `upgradeTower`, collecting the new
tower list and the total amount the `setMoney` calls subtract. -/
def upgradeList (money : Int) (towerId : String) :
    List Tower → Option (List Tower × Int)
  | [] => some ([], 0)
  | t :: rest =>
    match upgradeOne money towerId t, upgradeList money towerId rest with
    | some (t1, c), some (rest1, cs) => some (t1 :: rest1, c + cs)
    | _, _ => none

/-- Source: `upgradeTower(towerId)`.  The money check inside the map callback
reads the `money` state captured by the closure, i.e. `s.money`. -/
def upgradeTower (towerId : String) (s : GameState) : Option GameState :=
  match upgradeList s.money towerId s.towers with
  | none => none
  | some (ts, total) => some { s with towers := ts, money := s.money - total }

/-- One scheduled spawn event of `nextWave`: fires `delayMs` milliseconds
after the wave start (the source passes `i * 700` to `setTimeout`). -/
structure SpawnEvent where
  delayMs : Nat
  type : String
  hp : Int
  deriving DecidableEq

/-- Kind selection of one spawn event.  The source draws
`Math.random() < Math.min(0.25, currentWave * 0.02)` for fast and only on
failure draws `Math.random() < 0.12` for cannon; the two potential draws of
event `i` are the pair `(r1, r2)`. -/
def chooseType (currentWave : Nat) (r1 r2 : ℚ) : String :=
  if r1 < min (25/100) ((currentWave : ℚ) * (2/100)) then "fast"
  else if r2 < 12/100 then "cannon" else "basic"

/-- Hit points at spawn: `t === 'cannon' ? 6 + currentWave : 3 + Math.floor(currentWave/2)`. -/
def spawnHp (currentWave : Nat) (t : String) : Int :=
  if t = "cannon" then 6 + currentWave
  else 3 + Int.floor ((currentWave : ℚ) / 2)

/-- Number of spawn events: `5 + Math.floor(currentWave * 1.5)`. -/
def waveCount (currentWave : Nat) : Nat :=
  5 + (Int.floor ((currentWave : ℚ) * (15/10))).toNat

/-- The schedule produced by `nextWave` for wave number `currentWave`
(the incremented wave counter), with the random draws of event `i`
supplied by `rng i`. -/
def nextWave (currentWave : Nat) (rng : Nat → ℚ × ℚ) : List SpawnEvent :=
  (List.range (waveCount currentWave)).map (fun i =>
    let r := rng i
    let t := chooseType currentWave r.1 r.2
    { delayMs := i * 700, type := t, hp := spawnHp currentWave t })

/-- Shape of the object stored by `saveGame`; each field is optional because
`loadGame` must cope with arbitrary parsed JSON (missing field = `none`). -/
structure SaveData where
  money : Option Int
  lives : Option Int
  wave : Option Int
  towers : Option (List Tower)
  deriving DecidableEq

/-- JavaScript `x || d` for an optional integer: missing and zero values are
falsy and yield the default. -/
def jsOrInt (v : Option Int) (d : Int) : Int :=
  match v with
  | none => d
  | some x => if x = 0 then d else x

/-- Source: `loadGame()`.  With no stored save the function alerts and
returns (`none` argument); otherwise each scalar field goes through the
`|| default` fallback and the tower list through `obj.towers || []`
(an array, even empty, is always truthy). -/
def loadGame (saved : Option SaveData) (s : GameState) : GameState :=
  match saved with
  | none => s
  | some obj =>
    { s with money := jsOrInt obj.money 100,
             lives := jsOrInt obj.lives 10,
             wave := jsOrInt obj.wave 0,
             towers := match obj.towers with | none => [] | some ts => ts }

/-- PositionCache invariant as the specification states it: an entry exists
if and only if a matching enemy is in the live set. -/
def cacheIff (s : GameState) : Prop :=
  ∀ k : String, (cacheGet s.cache k).isSome = true ↔
    ∃ e, e ∈ s.enemies ∧ e.id = k

/-- The direction of the cache invariant the code maintains at all times:
every cache entry belongs to an enemy of the live set. -/
def cacheSub (s : GameState) : Prop :=
  ∀ k : String, (cacheGet s.cache k).isSome = true →
    ∃ e, e ∈ s.enemies ∧ e.id = k

theorem cacheGet_cacheErase (c : PosCache) (i k : String) :
    cacheGet (cacheErase c i) k = if k = i then none else cacheGet c k := by
  induction c with
  | nil => simp [cacheErase, cacheGet]
  | cons hd tl ih =>
    obtain ⟨k0, v0⟩ := hd
    by_cases h0 : k0 = i
    · have hstep : cacheErase ((k0, v0) :: tl) i = cacheErase tl i := by
        simp [cacheErase, List.filter_cons, h0]
      rw [hstep, ih]
      by_cases hk : k = i
      · simp [hk]
      · have hne : ¬ k0 = k := fun hh => hk (h0 ▸ hh.symm)
        simp [cacheGet, hk, hne]
    · have hstep : cacheErase ((k0, v0) :: tl) i = (k0, v0) :: cacheErase tl i := by
        simp [cacheErase, List.filter_cons, h0]
      rw [hstep]
      by_cases hk0 : k0 = k
      · subst hk0
        simp [cacheGet, h0]
      · simp [cacheGet, hk0, ih]

theorem cacheGet_cacheSet (c : PosCache) (i k : String) (v : CacheEntry) :
    cacheGet (cacheSet c i v) k = if i = k then some v else cacheGet c k := by
  by_cases h : i = k
  · simp [cacheSet, cacheGet, h]
  · have hk : ¬ k = i := fun hh => h hh.symm
    simp only [cacheSet, cacheGet, if_neg h]
    rw [cacheGet_cacheErase, if_neg hk]

theorem cacheGet_foldl_erase (l : List Enemy) (c : PosCache) (k : String)
    (h : (cacheGet (l.foldl (fun c e => cacheErase c e.id) c) k).isSome = true) :
    (cacheGet c k).isSome = true ∧ ∀ e ∈ l, ¬ e.id = k := by
  induction l generalizing c with
  | nil => simpa using h
  | cons hd tl ih =>
    simp only [List.foldl_cons] at h
    obtain ⟨h1, h2⟩ := ih (cacheErase c hd.id) h
    rw [cacheGet_cacheErase] at h1
    by_cases hk : k = hd.id
    · simp [hk] at h1
    · refine ⟨by simpa [hk] using h1, ?_⟩
      intro e he
      rcases List.mem_cons.mp he with he | he
      · subst he; exact fun hh => hk hh.symm
      · exact h2 e he

theorem byIdGet_map (g : Enemy → Enemy) (hg : ∀ e, (g e).id = e.id)
    (l : List Enemy) (i : String) :
    byIdGet (l.map g) i = (byIdGet l i).map g := by
  induction l with
  | nil => simp [byIdGet]
  | cons hd tl ih =>
    simp only [List.map_cons, byIdGet, ih]
    cases htl : byIdGet tl i with
    | some x => simp
    | none =>
      simp only [Option.map_none]
      by_cases hid : hd.id = i
      · simp [hg, hid]
      · simp [hg, hid]

theorem byIdGet_subLast_self (l : List Enemy) (i : String) (d : Int)
    (e : Enemy) (h : byIdGet l i = some e) :
    byIdGet (subLast i d l) i = some { e with hp := e.hp - d } := by
  induction l with
  | nil => simp [byIdGet] at h
  | cons hd tl ih =>
    cases htl : byIdGet tl i with
    | some x =>
      have hx : x = e := by
        simp only [byIdGet, htl] at h
        exact Option.some.inj h
      subst hx
      have hcond : ¬ (hd.id = i ∧ byIdGet tl i = none) := by
        rintro ⟨-, hnone⟩; rw [htl] at hnone; exact Option.noConfusion hnone
      simp only [subLast, if_neg hcond, byIdGet, ih htl]
    | none =>
      by_cases hid : hd.id = i
      · have he : hd = e := by
          simp only [byIdGet, htl, if_pos hid] at h
          exact Option.some.inj h
        subst he
        have hcond : hd.id = i ∧ byIdGet tl i = none := ⟨hid, htl⟩
        simp only [subLast, if_pos hcond, byIdGet, htl, hid]
        simp
      · simp [byIdGet, htl, hid] at h

theorem byIdGet_subLast_ne (l : List Enemy) (i j : String) (d : Int)
    (hne : ¬ j = i) : byIdGet (subLast i d l) j = byIdGet l j := by
  induction l with
  | nil => simp [subLast]
  | cons hd tl ih =>
    by_cases hcond : hd.id = i ∧ byIdGet tl i = none
    · simp only [subLast, if_pos hcond, byIdGet]
      have : ¬ hd.id = j := by
        rw [hcond.1]; exact fun hh => hne hh.symm
      simp [this]
    · simp only [subLast, if_neg hcond, byIdGet, ih]

theorem subLast_map_id (l : List Enemy) (i : String) (d : Int) :
    (subLast i d l).map Enemy.id = l.map Enemy.id := by
  induction l with
  | nil => simp [subLast]
  | cons hd tl ih =>
    by_cases hcond : hd.id = i ∧ byIdGet tl i = none
    · simp [subLast, if_pos hcond]
    · simp [subLast, if_neg hcond, ih]

theorem subLast_length (l : List Enemy) (i : String) (d : Int) :
    (subLast i d l).length = l.length := by
  have := congrArg List.length (subLast_map_id l i d)
  simpa using this

theorem applySplash_map_id (d : Int) (sp : ℚ) (hp : Vec3) (c : PosCache)
    (l : List Enemy) :
    (applySplash d sp hp c l).map Enemy.id = l.map Enemy.id := by
  unfold applySplash
  by_cases hsp : ¬ sp = 0
  · simp only [if_pos hsp, List.map_map]
    apply List.map_congr_left
    intro e _
    simp only [Function.comp_apply]
    cases cacheGet c e.id with
    | none => rfl
    | some posObj =>
      by_cases hd : distLe posObj.pos hp sp <;> simp [hd]
  · simp [hsp]

theorem applySplash_length (d : Int) (sp : ℚ) (hp : Vec3) (c : PosCache)
    (l : List Enemy) : (applySplash d sp hp c l).length = l.length := by
  have := congrArg List.length (applySplash_map_id d sp hp c l)
  simpa using this

theorem byIdGet_eq_none (l : List Enemy) (i : String)
    (h : ∀ e ∈ l, ¬ e.id = i) : byIdGet l i = none := by
  induction l with
  | nil => rfl
  | cons hd tl ih =>
    have h1 : byIdGet tl i = none :=
      ih (fun e he => h e (List.mem_cons_of_mem _ he))
    simp only [byIdGet, h1]
    simp [h hd (List.mem_cons_self _ _)]

theorem byIdGet_id (l : List Enemy) (i : String) (e : Enemy)
    (h : byIdGet l i = some e) : e.id = i := by
  induction l with
  | nil => simp [byIdGet] at h
  | cons hd tl ih =>
    simp only [byIdGet] at h
    cases htl : byIdGet tl i with
    | some x =>
      rw [htl] at h
      exact ih (htl.trans (congrArg some (Option.some.inj h)))
    | none =>
      rw [htl] at h
      by_cases hid : hd.id = i
      · rw [if_pos hid] at h
        rw [← Option.some.inj h]
        exact hid
      · rw [if_neg hid] at h
        exact Option.noConfusion h

theorem byIdGet_applySplash (d : Int) (sp : ℚ) (hpos : Vec3) (c : PosCache)
    (l : List Enemy) (i : String) (e : Enemy) (info : CacheEntry)
    (hsp : ¬ sp = 0)
    (hbe : byIdGet l i = some e)
    (hci : cacheGet c i = some info)
    (hdist : distLe info.pos hpos sp = true) :
    byIdGet (applySplash d sp hpos c l) i = some { e with hp := e.hp - d } := by
  have happ : applySplash d sp hpos c l =
      l.map (fun x : Enemy =>
        match cacheGet c x.id with
        | none => x
        | some posObj =>
          if distLe posObj.pos hpos sp then { x with hp := x.hp - d }
          else x) := by
    unfold applySplash
    rw [if_pos hsp]
  have hg : ∀ x : Enemy,
      ((fun x : Enemy =>
        match cacheGet c x.id with
        | none => x
        | some posObj =>
          if distLe posObj.pos hpos sp then { x with hp := x.hp - d }
          else x) x).id = x.id := by
    intro x
    cases hcx : cacheGet c x.id with
    | none => simp [hcx]
    | some posObj =>
      by_cases hdl : distLe posObj.pos hpos sp = true
      · simp [hcx, hdl]
      · simp [hcx, hdl]
  rw [happ, byIdGet_map _ hg, hbe]
  have hei : e.id = i := byIdGet_id l i e hbe
  simp [hei, hci, hdist]

theorem byIdGet_filter_ne (l : List Enemy) (i : String) :
    byIdGet (l.filter (fun e => ¬ e.id = i)) i = none := by
  apply byIdGet_eq_none
  intro e he
  have := (List.mem_filter.mp he).2
  simpa using this

theorem length_filter_hp (l : List Enemy) :
    (l.filter (fun e => e.hp ≤ 0)).length +
      (l.filter (fun e => ¬ e.hp ≤ 0)).length = l.length := by
  induction l with
  | nil => rfl
  | cons hd tl ih =>
    rw [List.filter_cons, List.filter_cons]
    by_cases hhp : hd.hp ≤ 0
    · rw [if_pos (by simpa using hhp), if_neg (by simpa using hhp)]
      simp only [List.length_cons]
      omega
    · rw [if_neg (by simpa using hhp), if_pos (by simpa using hhp)]
      simp only [List.length_cons]
      omega

theorem mem_filter_hp (l : List Enemy) (e : Enemy) (he : e ∈ l) :
    e ∈ l.filter (fun e => e.hp ≤ 0) ∨ e ∈ l.filter (fun e => ¬ e.hp ≤ 0) := by
  by_cases hhp : e.hp ≤ 0
  · exact Or.inl (List.mem_filter.mpr ⟨he, by simpa using hhp⟩)
  · exact Or.inr (List.mem_filter.mpr ⟨he, by simpa using hhp⟩)

theorem TOWER_TYPES_dmg_pos (k : String) (cfg : TowerConfig)
    (h : TOWER_TYPES k = some cfg) : 1 ≤ cfg.dmg := by
  unfold TOWER_TYPES at h
  split_ifs at h <;> cases h <;> decide

/-- C9: a projectile whose target id is absent from the PositionCache at the
start of its update terminates with a null ("no target") report, and the
handler of a null report removes the projectile while leaving every enemy
hit-point value, the currency, the lives and the cache unchanged. -/
theorem no_target_zero_damage (pr : Projectile) (posAfterMove : Vec3)
    (cache : PosCache) (s : GameState) (pid : String)
    (h : cacheGet cache pr.targetId = none) :
    projectileFrame pr posAfterMove cache = some none ∧
    (handleProjectileHit pid none s).enemies = s.enemies ∧
    (handleProjectileHit pid none s).money = s.money ∧
    (handleProjectileHit pid none s).lives = s.lives ∧
    (handleProjectileHit pid none s).cache = s.cache ∧
    (handleProjectileHit pid none s).projectiles =
      s.projectiles.filter (fun p => ¬ p.id = pid) := by
  refine ⟨?_, rfl, rfl, rfl, rfl, rfl⟩
  simp [projectileFrame, h]

theorem no_target_zero_damage_witness :
    cacheGet [] "ghost" = none ∧
    (projectileFrame ⟨"p1", (0, 0, 0), "ghost", 2, 0⟩ (1, 0, 1) [] = some none ∧
     (handleProjectileHit "p1" none
        { initState with
          projectiles := [⟨"p1", (0, 0, 0), "ghost", 2, 0⟩] }).enemies = [] ∧
     (handleProjectileHit "p1" none
        { initState with
          projectiles := [⟨"p1", (0, 0, 0), "ghost", 2, 0⟩] }).money = 100) := by
  have hmain := no_target_zero_damage ⟨"p1", (0, 0, 0), "ghost", 2, 0⟩ (1, 0, 1)
    [] { initState with projectiles := [⟨"p1", (0, 0, 0), "ghost", 2, 0⟩] }
    "p1" (by rfl)
  exact ⟨rfl, hmain.1, hmain.2.1, hmain.2.2.1⟩

/-- C10: the load command passes each stored scalar through the JavaScript
falsy fallback: a stored value 0 for currency, lives or waveNumber is
replaced by the default (100, 10 and 0 respectively), exactly as a missing
field is, while a non-zero stored value is kept. -/
theorem load_zero_falls_back (s : GameState) (obj : SaveData) :
    (obj.money = some 0 → (loadGame (some obj) s).money = 100) ∧
    (obj.lives = some 0 → (loadGame (some obj) s).lives = 10) ∧
    (obj.wave = some 0 → (loadGame (some obj) s).wave = 0) ∧
    (obj.money = none → (loadGame (some obj) s).money = 100) ∧
    (∀ m : Int, obj.money = some m → ¬ m = 0 →
      (loadGame (some obj) s).money = m) ∧
    (∀ n : Int, obj.lives = some n → ¬ n = 0 →
      (loadGame (some obj) s).lives = n) := by
  refine ⟨?_, ?_, ?_, ?_, ?_, ?_⟩
  · intro h; simp [loadGame, jsOrInt, h]
  · intro h; simp [loadGame, jsOrInt, h]
  · intro h; simp [loadGame, jsOrInt, h]
  · intro h; simp [loadGame, jsOrInt, h]
  · intro m hm hne; simp [loadGame, jsOrInt, hm, hne]
  · intro n hn hne; simp [loadGame, jsOrInt, hn, hne]

theorem load_zero_falls_back_witness :
    (loadGame (some ⟨some 0, some 0, some 0, none⟩) initState).money = 100 ∧
    (loadGame (some ⟨some 0, some 0, some 0, none⟩) initState).lives = 10 ∧
    (loadGame (some ⟨some 0, some 0, some 0, none⟩) initState).wave = 0 ∧
    (loadGame (some ⟨some 7, some 3, some 0, none⟩) initState).money = 7 := by
  have h1 := load_zero_falls_back initState ⟨some 0, some 0, some 0, none⟩
  have h2 := load_zero_falls_back initState ⟨some 7, some 3, some 0, none⟩
  exact ⟨h1.1 rfl, h1.2.1 rfl, h1.2.2.1 rfl,
    h2.2.2.2.2.1 7 rfl (by decide)⟩

/-- C4: a hit report credits exactly 10 currency units per enemy it removes
from the live set, in a single credit, and a report whose direct target is
already absent from the live set changes nothing except removing the
reporting projectile (so an enemy killed by an earlier report in the same
tick can never be rewarded twice). -/
theorem reward_credited_once (s : GameState) (projId targetId : String)
    (sp : ℚ) (hpos : Vec3) :
    (handleProjectileHit projId (some ⟨targetId, sp, hpos⟩) s).money =
      s.money + 10 * ((s.enemies.length : Int) -
        ((handleProjectileHit projId (some ⟨targetId, sp, hpos⟩)
          s).enemies.length : Int)) ∧
    (handleProjectileHit projId (some ⟨targetId, sp, hpos⟩)
      s).enemies.length ≤ s.enemies.length ∧
    (byIdGet s.enemies targetId = none →
      handleProjectileHit projId (some ⟨targetId, sp, hpos⟩) s =
        { s with projectiles := s.projectiles.filter (fun p => ¬ p.id = projId) }) := by
  cases hby : byIdGet s.enemies targetId with
  | none =>
    refine ⟨?_, ?_, fun _ => ?_⟩ <;> simp [handleProjectileHit, hby]
  | some e0 =>
    have hred : handleProjectileHit projId (some ⟨targetId, sp, hpos⟩) s =
        { s with
          projectiles := s.projectiles.filter (fun p => ¬ p.id = projId),
          enemies := (applySplash (hitDamage projId s.projectiles) sp hpos s.cache
            (subLast targetId (hitDamage projId s.projectiles)
              s.enemies)).filter (fun e => ¬ e.hp ≤ 0),
          cache := ((applySplash (hitDamage projId s.projectiles) sp hpos s.cache
            (subLast targetId (hitDamage projId s.projectiles)
              s.enemies)).filter (fun e => e.hp ≤ 0)).foldl
              (fun c e => cacheErase c e.id) s.cache,
          money := s.money + 10 * ((applySplash (hitDamage projId s.projectiles)
            sp hpos s.cache (subLast targetId (hitDamage projId s.projectiles)
              s.enemies)).filter (fun e => e.hp ≤ 0)).length } := by
      simp [handleProjectileHit, hby]
    rw [hred]
    have hlen : (applySplash (hitDamage projId s.projectiles) sp hpos s.cache
        (subLast targetId (hitDamage projId s.projectiles) s.enemies)).length =
        s.enemies.length := by
      rw [applySplash_length, subLast_length]
    have hpart := length_filter_hp (applySplash (hitDamage projId s.projectiles)
      sp hpos s.cache (subLast targetId (hitDamage projId s.projectiles) s.enemies))
    rw [hlen] at hpart
    refine ⟨?_, ?_, fun hnone => ?_⟩
    · simp only []
      omega
    · simp only []
      omega
    · simp [hby] at hnone

theorem reward_credited_once_witness :
    (handleProjectileHit "p1" (some ⟨"e1", 0, (0, 0, 0)⟩)
      { initState with
        enemies := [⟨"e1", "basic", 2⟩],
        cache := [("e1", ⟨(0, 0, 0), 2⟩)],
        projectiles := [⟨"p1", (0, 0, 0), "e1", 2, 0⟩] }).money =
      100 + 10 * ((1 : Int) - 0) := by
  have h := reward_credited_once
    { initState with
      enemies := [⟨"e1", "basic", 2⟩],
      cache := [("e1", ⟨(0, 0, 0), 2⟩)],
      projectiles := [⟨"p1", (0, 0, 0), "e1", 2, 0⟩] } "p1" "e1" 0 (0, 0, 0)
  have h1 := h.1
  simpa using h1

/-- C1: the damage a hit report applies to its direct target equals the
reporting projectile's own damage value fixed at spawn time (tower base
damage plus damage bonus): the resolver's lookup of the captured projectile
list returns exactly that value, which is at least 1, so the fallback branch
producing 1 is never what determines the subtracted amount. -/
theorem direct_damage_is_spawn_damage (s : GameState) (pr : Projectile)
    (k : String) (cfg : TowerConfig) (b : Int) (e : Enemy)
    (hfind : findProj s.projectiles pr.id = some pr)
    (hcfg : TOWER_TYPES k = some cfg)
    (hb : 0 ≤ b)
    (hdmg : pr.dmg = (if cfg.dmg = 0 then 1 else cfg.dmg) + b)
    (he : byIdGet s.enemies pr.targetId = some e) :
    hitDamage pr.id s.projectiles = pr.dmg ∧
    1 ≤ pr.dmg ∧
    byIdGet (subLast pr.targetId (hitDamage pr.id s.projectiles) s.enemies)
      pr.targetId = some { e with hp := e.hp - pr.dmg } ∧
    ∀ hpos : Vec3,
      (handleProjectileHit pr.id (some ⟨pr.targetId, 0, hpos⟩) s).enemies =
        (subLast pr.targetId pr.dmg s.enemies).filter (fun e => ¬ e.hp ≤ 0) := by
  have hdpos : 1 ≤ pr.dmg := by
    have h1 := TOWER_TYPES_dmg_pos k cfg hcfg
    rw [hdmg]
    split_ifs with h0 <;> omega
  have hhit : hitDamage pr.id s.projectiles = pr.dmg := by
    unfold hitDamage
    rw [hfind]
    have hne : ¬ pr.dmg = 0 := by omega
    simp [hne]
  refine ⟨hhit, hdpos, ?_, ?_⟩
  · rw [hhit]
    exact byIdGet_subLast_self s.enemies pr.targetId pr.dmg e he
  · intro hpos
    simp only [handleProjectileHit, he]
    rw [hhit]
    simp [applySplash]

theorem direct_damage_is_spawn_damage_witness :
    findProj [⟨"p1", (0, 0, 0), "e1", 5, 0⟩] "p1" =
      some ⟨"p1", (0, 0, 0), "e1", 5, 0⟩ ∧
    hitDamage "p1" [⟨"p1", (0, 0, 0), "e1", 5, 0⟩] = 5 ∧
    (handleProjectileHit "p1" (some ⟨"e1", 0, (0, 0, 0)⟩)
      { initState with
        enemies := [⟨"e1", "basic", 9⟩],
        projectiles := [⟨"p1", (0, 0, 0), "e1", 5, 0⟩] }).enemies =
      [⟨"e1", "basic", 4⟩] := by
  have h := direct_damage_is_spawn_damage
    { initState with
      enemies := [⟨"e1", "basic", 9⟩],
      projectiles := [⟨"p1", (0, 0, 0), "e1", 5, 0⟩] }
    ⟨"p1", (0, 0, 0), "e1", 5, 0⟩ "sniper" ⟨85, 9, 5, 15/10, none⟩ 0
    ⟨"e1", "basic", 9⟩ (by rfl) (by rfl) (by decide) (by decide) (by rfl)
  refine ⟨by rfl, h.1, ?_⟩
  rw [h.2.2.2 (0, 0, 0)]
  decide

/-- C2: for a hit report with positive splash radius, every live enemy whose
cached position lies within the radius of the hit position takes the report
damage once more on top of any direct damage, and in particular the direct
target itself (when cached inside the radius) loses twice the report damage
from the single report. -/
theorem splash_double_hits_target (s : GameState) (projId targetId : String)
    (sp : ℚ) (hpos : Vec3) (e : Enemy)
    (hsp : 0 < sp)
    (he : byIdGet s.enemies targetId = some e) :
    ((handleProjectileHit projId (some ⟨targetId, sp, hpos⟩) s).enemies =
      (applySplash (hitDamage projId s.projectiles) sp hpos s.cache
        (subLast targetId (hitDamage projId s.projectiles) s.enemies)).filter
        (fun e => ¬ e.hp ≤ 0)) ∧
    (∀ (i : String) (e2 : Enemy) (info : CacheEntry),
      byIdGet s.enemies i = some e2 →
      cacheGet s.cache i = some info →
      distLe info.pos hpos sp = true →
      byIdGet (applySplash (hitDamage projId s.projectiles) sp hpos s.cache
        (subLast targetId (hitDamage projId s.projectiles) s.enemies)) i =
        some { e2 with hp :=
          e2.hp - (if i = targetId then hitDamage projId s.projectiles else 0)
            - hitDamage projId s.projectiles }) ∧
    (∀ info : CacheEntry,
      cacheGet s.cache targetId = some info →
      distLe info.pos hpos sp = true →
      byIdGet (applySplash (hitDamage projId s.projectiles) sp hpos s.cache
        (subLast targetId (hitDamage projId s.projectiles) s.enemies)) targetId =
        some { e with hp := e.hp - 2 * hitDamage projId s.projectiles }) := by
  have hspne : ¬ sp = 0 := ne_of_gt hsp
  have hsecond : ∀ (i : String) (e2 : Enemy) (info : CacheEntry),
      byIdGet s.enemies i = some e2 →
      cacheGet s.cache i = some info →
      distLe info.pos hpos sp = true →
      byIdGet (applySplash (hitDamage projId s.projectiles) sp hpos s.cache
        (subLast targetId (hitDamage projId s.projectiles) s.enemies)) i =
        some { e2 with hp :=
          e2.hp - (if i = targetId then hitDamage projId s.projectiles else 0)
            - hitDamage projId s.projectiles } := by
    intro i e2 info hbe hci hdist
    by_cases hit : i = targetId
    · subst hit
      have he2 : e2 = e := Option.some.inj (hbe.symm.trans he)
      subst he2
      have hsub := byIdGet_subLast_self s.enemies i
        (hitDamage projId s.projectiles) e2 hbe
      have hres := byIdGet_applySplash (hitDamage projId s.projectiles) sp hpos
        s.cache (subLast i (hitDamage projId s.projectiles) s.enemies) i
        { e2 with hp := e2.hp - hitDamage projId s.projectiles } info
        hspne hsub hci hdist
      rw [hres]
      simp
    · have hsub : byIdGet (subLast targetId (hitDamage projId s.projectiles)
          s.enemies) i = some e2 := by
        rw [byIdGet_subLast_ne s.enemies targetId i
          (hitDamage projId s.projectiles) hit]
        exact hbe
      have hres := byIdGet_applySplash (hitDamage projId s.projectiles) sp hpos
        s.cache (subLast targetId (hitDamage projId s.projectiles) s.enemies) i
        e2 info hspne hsub hci hdist
      rw [hres]
      simp [hit]
  refine ⟨by simp [handleProjectileHit, he], hsecond, ?_⟩
  intro info hci hdist
  have h3 := hsecond targetId e info he hci hdist
  have harith : e.hp -
      (if targetId = targetId then hitDamage projId s.projectiles else 0)
      - hitDamage projId s.projectiles =
      e.hp - 2 * hitDamage projId s.projectiles := by
    rw [if_pos rfl]
    ring
  rw [h3, harith]

theorem splash_double_hits_target_witness :
    (0 : ℚ) < 22/10 ∧
    byIdGet (applySplash 2 (22/10) (0, 0, 0)
        [("e1", ⟨(0, 0, 0), 5⟩), ("e2", ⟨(1, 0, 0), 3⟩)]
        (subLast "e1" 2 [⟨"e1", "basic", 5⟩, ⟨"e2", "basic", 3⟩])) "e2" =
      some ⟨"e2", "basic", 1⟩ ∧
    byIdGet (applySplash 2 (22/10) (0, 0, 0)
        [("e1", ⟨(0, 0, 0), 5⟩), ("e2", ⟨(1, 0, 0), 3⟩)]
        (subLast "e1" 2 [⟨"e1", "basic", 5⟩, ⟨"e2", "basic", 3⟩])) "e1" =
      some ⟨"e1", "basic", 1⟩ := by
  have h := splash_double_hits_target
    { initState with
      enemies := [⟨"e1", "basic", 5⟩, ⟨"e2", "basic", 3⟩],
      cache := [("e1", ⟨(0, 0, 0), 5⟩), ("e2", ⟨(1, 0, 0), 3⟩)],
      projectiles := [⟨"p1", (0, 0, 0), "e1", 2, 22/10⟩] }
    "p1" "e1" (22/10) (0, 0, 0) ⟨"e1", "basic", 5⟩ (by norm_num) (by rfl)
  have hd : hitDamage "p1" [(⟨"p1", (0, 0, 0), "e1", 2, 22/10⟩ : Projectile)]
      = 2 := by rfl
  refine ⟨by norm_num, ?_, ?_⟩
  · have h2 := h.2.1 "e2" ⟨"e2", "basic", 3⟩ ⟨(1, 0, 0), 3⟩
      (by rfl) (by rfl) (by norm_num [distLe, distSq])
    rw [hd] at h2
    simpa using h2
  · have h3 := h.2.2 ⟨(0, 0, 0), 5⟩ (by rfl) (by norm_num [distLe, distSq])
    rw [hd] at h3
    simpa using h3

theorem upgradeOne_skip (m : Int) (i : String) (t : Tower)
    (h : ¬ t.id = i) : upgradeOne m i t = some (t, 0) := by
  simp [upgradeOne, h]

theorem upgradeList_skip (m : Int) (i : String) (l : List Tower)
    (h : ∀ u ∈ l, ¬ u.id = i) : upgradeList m i l = some (l, 0) := by
  induction l with
  | nil => rfl
  | cons hd tl ih =>
    have hone : upgradeOne m i hd = some (hd, 0) :=
      upgradeOne_skip m i hd (h hd (List.mem_cons_self _ _))
    have htl : upgradeList m i tl = some (tl, 0) :=
      ih (fun u hu => h u (List.mem_cons_of_mem _ hu))
    simp [upgradeList, hone, htl]

theorem upgradeList_append_skip (m : Int) (i : String) (l1 r : List Tower)
    (h : ∀ u ∈ l1, ¬ u.id = i) :
    upgradeList m i (l1 ++ r) =
      (upgradeList m i r).map (fun p => (l1 ++ p.1, p.2)) := by
  induction l1 with
  | nil =>
    cases hr : upgradeList m i r with
    | none => simp [hr]
    | some p => simp [hr]
  | cons hd tl ih =>
    have hone : upgradeOne m i hd = some (hd, 0) :=
      upgradeOne_skip m i hd (h hd (List.mem_cons_self _ _))
    have ih2 := ih (fun u hu => h u (List.mem_cons_of_mem _ hu))
    cases hr : upgradeList m i r with
    | none =>
      rw [hr] at ih2
      simp only [Option.map_none'] at ih2
      simp [upgradeList, hone, ih2]
    | some p =>
      rw [hr] at ih2
      simp only [Option.map_some'] at ih2
      simp [upgradeList, hone, ih2, hr]

/-- C8: the upgrade command for a tower of a known kind at level L costs
round(baseCost times 1.6 to the L); with insufficient currency it is rejected
with no mutation at all, otherwise it deducts exactly the cost, increments
the level, adds round(baseDamage times 0.6) to the damage bonus and 0.8 to
the range bonus. -/
theorem upgrade_cost_and_atomicity (s : GameState) (t : Tower)
    (cfg : TowerConfig) (l1 l2 : List Tower)
    (hcfg : TOWER_TYPES t.type = some cfg)
    (hts : s.towers = l1 ++ t :: l2)
    (h1 : ∀ u ∈ l1, ¬ u.id = t.id)
    (h2 : ∀ u ∈ l2, ¬ u.id = t.id) :
    upgradeCost cfg t.level = jsRound ((cfg.cost : ℚ) * (16/10) ^ t.level) ∧
    (s.money < upgradeCost cfg t.level → upgradeTower t.id s = some s) ∧
    (¬ s.money < upgradeCost cfg t.level →
      upgradeTower t.id s = some { s with
        money := s.money - upgradeCost cfg t.level,
        towers := l1 ++ { t with
          level := t.level + 1,
          dmgBonus := t.dmgBonus + jsRound ((cfg.dmg : ℚ) * (6/10)),
          rangeBonus := t.rangeBonus + 8/10 } :: l2 }) := by
  have hskip2 : upgradeList s.money t.id l2 = some (l2, 0) :=
    upgradeList_skip s.money t.id l2 h2
  have hform : upgradeCost cfg t.level =
      jsRound ((cfg.cost : ℚ) * (16/10) ^ t.level) := by
    have h1610 : (16/10 : ℚ) = 8/5 := by norm_num
    rw [h1610]
    rfl
  refine ⟨hform, ?_, ?_⟩
  · intro hlt
    have hone : upgradeOne s.money t.id t = some (t, 0) := by
      simp [upgradeOne, hcfg, hlt]
    have hlist : upgradeList s.money t.id (t :: l2) = some (t :: l2, 0) := by
      simp [upgradeList, hone, hskip2]
    have happ := upgradeList_append_skip s.money t.id l1 (t :: l2) h1
    rw [hlist] at happ
    simp only [Option.map_some'] at happ
    unfold upgradeTower
    rw [hts, happ]
    rw [← hts]
    simp
  · intro hge
    have hone : upgradeOne s.money t.id t = some ({ t with
        level := t.level + 1,
        dmgBonus := t.dmgBonus + jsRound ((cfg.dmg : ℚ) * (6/10)),
        rangeBonus := t.rangeBonus + 8/10 }, upgradeCost cfg t.level) := by
      simp [upgradeOne, hcfg, hge]
    have hlist : upgradeList s.money t.id (t :: l2) = some ({ t with
        level := t.level + 1,
        dmgBonus := t.dmgBonus + jsRound ((cfg.dmg : ℚ) * (6/10)),
        rangeBonus := t.rangeBonus + 8/10 } :: l2,
        upgradeCost cfg t.level + 0) := by
      simp [upgradeList, hone, hskip2]
    have happ := upgradeList_append_skip s.money t.id l1 (t :: l2) h1
    rw [hlist] at happ
    simp only [Option.map_some'] at happ
    unfold upgradeTower
    rw [hts, happ]
    simp

theorem upgrade_cost_and_atomicity_witness :
    upgradeCost ⟨30, 35/10, 1, 8/10, none⟩ 1 = 48 ∧
    upgradeTower "t1" { initState with
        towers := [⟨"t1", (0, 0, 0), "basic", 1, 0, 0⟩] } =
      some { initState with
        towers := [⟨"t1", (0, 0, 0), "basic", 2, 1, 8/10⟩], money := 52 } ∧
    upgradeTower "t1" { initState with
        towers := [⟨"t1", (0, 0, 0), "basic", 1, 0, 0⟩], money := 40 } =
      some { initState with
        towers := [⟨"t1", (0, 0, 0), "basic", 1, 0, 0⟩], money := 40 } := by
  have hcost : upgradeCost (⟨30, 35/10, 1, 8/10, none⟩ : TowerConfig) 1 = 48 := by
    have harg : (((⟨30, 35/10, 1, 8/10, none⟩ : TowerConfig).cost : ℚ)) *
        (8/5) ^ (1 : Nat) + 1/2 = 97/2 := by norm_num
    unfold upgradeCost jsRound
    rw [harg, Int.floor_eq_iff]
    norm_num
  have hjr : jsRound ((6 : ℚ)/10) = 1 := by
    unfold jsRound
    rw [show (6 : ℚ)/10 + 1/2 = 11/10 by norm_num]
    rw [Int.floor_eq_iff]
    norm_num
  have hok := upgrade_cost_and_atomicity
    { initState with towers := [⟨"t1", (0, 0, 0), "basic", 1, 0, 0⟩] }
    ⟨"t1", (0, 0, 0), "basic", 1, 0, 0⟩ ⟨30, 35/10, 1, 8/10, none⟩ [] []
    (by rfl) (by rfl) (by intro u hu; simp at hu) (by intro u hu; simp at hu)
  have hrej := upgrade_cost_and_atomicity
    { initState with towers := [⟨"t1", (0, 0, 0), "basic", 1, 0, 0⟩], money := 40 }
    ⟨"t1", (0, 0, 0), "basic", 1, 0, 0⟩ ⟨30, 35/10, 1, 8/10, none⟩ [] []
    (by rfl) (by rfl) (by intro u hu; simp at hu) (by intro u hu; simp at hu)
  refine ⟨hcost, ?_, ?_⟩
  · exact (hok.2.2 (by simp [hcost, initState])).trans
      (by simp [initState, hcost, hjr])
  · exact hrej.2.1 (by simp [hcost, initState])

/-- C5: starting wave W schedules exactly 5 + floor(1.5 W) spawn events at a
0.7 second (700 ms) stagger, each event choosing kind fast when its first
draw is below min(0.25, 0.02 W), otherwise cannon exactly when its second
draw is below 0.12, and the spawned hit points are 6 + W for cannon and
3 + floor(W/2) otherwise. -/
theorem wave_schedule (W : Nat) (rng : Nat → ℚ × ℚ) (hW : 1 ≤ W) :
    (nextWave W rng).length = 5 + 3 * W / 2 ∧
    ∀ (i : ℕ) (hi : i < (nextWave W rng).length),
      ((nextWave W rng).get ⟨i, hi⟩).delayMs = i * 700 ∧
      (((nextWave W rng).get ⟨i, hi⟩).type = "fast" ↔
        (rng i).1 < min (25/100) ((W : ℚ) * (2/100))) ∧
      (¬ (rng i).1 < min (25/100) ((W : ℚ) * (2/100)) →
        (((nextWave W rng).get ⟨i, hi⟩).type = "cannon" ↔
          (rng i).2 < 12/100)) ∧
      ((nextWave W rng).get ⟨i, hi⟩).hp =
        (if ((nextWave W rng).get ⟨i, hi⟩).type = "cannon"
         then 6 + (W : Int) else 3 + (W : Int) / 2) := by
  have hcount : waveCount W = 5 + 3 * W / 2 := by
    unfold waveCount
    rw [Int.floor_toNat]
    rw [show ((W : ℚ) * (15/10)) = ((3 * W : ℕ) : ℚ) / ((2 : ℕ) : ℚ) by
      push_cast; ring]
    rw [Nat.floor_div_eq_div]
  have hlen : (nextWave W rng).length = waveCount W := by
    simp [nextWave]
  have hget : ∀ (i : ℕ) (hi : i < (nextWave W rng).length),
      (nextWave W rng).get ⟨i, hi⟩ =
        { delayMs := i * 700,
          type := chooseType W (rng i).1 (rng i).2,
          hp := spawnHp W (chooseType W (rng i).1 (rng i).2) } := by
    intro i hi
    simp [nextWave]
  refine ⟨hlen.trans hcount, ?_⟩
  intro i hi
  rw [hget i hi]
  refine ⟨rfl, ?_, ?_, ?_⟩
  · by_cases h1 : (rng i).1 < min (25/100) ((W : ℚ) * (2/100))
    · simp [chooseType, h1]
    · simp only [chooseType, if_neg h1]
      by_cases h2 : (rng i).2 < 12/100 <;> simp [h2, h1]
  · intro hnf
    simp only [chooseType, if_neg hnf]
    by_cases h2 : (rng i).2 < 12/100
    · simp [h2]
    · simp [h2]
  · unfold spawnHp
    by_cases hc : chooseType W (rng i).1 (rng i).2 = "cannon"
    · simp [hc]
    · rw [if_neg hc, if_neg hc]
      rw [show ((W : ℚ) / 2) = ((W : ℕ) : ℚ) / ((2 : ℕ) : ℚ) by push_cast; ring]
      rw [← Int.natCast_floor_eq_floor (by positivity)]
      rw [Nat.floor_div_eq_div]
      push_cast
      rfl

theorem wave_schedule_witness :
    (1 : ℕ) ≤ 1 ∧ (nextWave 1 (fun _ => (1/2, 1/2))).length = 6 := by
  refine ⟨le_refl 1, ?_⟩
  have h := (wave_schedule 1 (fun _ => (1/2, 1/2)) (le_refl 1)).1
  rw [h]

/-- C6: each enemy frame advances pathProgress by speed(kind) times dt with
the speed table fast 1.2, cannon 0.45, and 0.7 otherwise; when the floored
progress reaches the number of path segments the enemy is removed from the
live set and the cache, lives drop by exactly one, and a subsequent hit
report naming it resolves no damage and no reward; otherwise its published
cache entry is the linear interpolation between the waypoints at the floored
index and the next one, at the fractional part of the progress. -/
theorem enemy_motion_and_removal (id type_ : String) (hp : Int)
    (progress dt : ℚ) (s : GameState)
    (hprog : 0 ≤ progress) (hdt : 0 ≤ dt) :
    (enemyFrame id type_ hp progress dt s).1 =
      progress + baseSpeed type_ * dt ∧
    baseSpeed type_ = (if type_ = "fast" then 12/10
      else if type_ = "cannon" then 45/100 else 7/10) ∧
    ((PATH.length : Int) - 1 ≤ Int.floor (progress + baseSpeed type_ * dt) →
      (∀ e ∈ (enemyFrame id type_ hp progress dt s).2.enemies, ¬ e.id = id) ∧
      cacheGet (enemyFrame id type_ hp progress dt s).2.cache id = none ∧
      (enemyFrame id type_ hp progress dt s).2.lives = s.lives - 1 ∧
      (∀ (pid : String) (sp : ℚ) (hpos : Vec3),
        (handleProjectileHit pid (some ⟨id, sp, hpos⟩)
          (enemyFrame id type_ hp progress dt s).2).enemies =
            (enemyFrame id type_ hp progress dt s).2.enemies ∧
        (handleProjectileHit pid (some ⟨id, sp, hpos⟩)
          (enemyFrame id type_ hp progress dt s).2).money =
            (enemyFrame id type_ hp progress dt s).2.money)) ∧
    (Int.floor (progress + baseSpeed type_ * dt) < (PATH.length : Int) - 1 →
      cacheGet (enemyFrame id type_ hp progress dt s).2.cache id =
        some { pos :=
                 lerpVec
                   (PATH.getD (Int.floor (progress + baseSpeed type_ * dt)).toNat
                     (0, 0, 0))
                   (PATH.getD
                     ((Int.floor (progress + baseSpeed type_ * dt)).toNat + 1)
                     (0, 0, 0))
                   (progress + baseSpeed type_ * dt -
                     Int.floor (progress + baseSpeed type_ * dt)),
               hp := hp }) := by
  by_cases hidx : (PATH.length : Int) - 1 ≤
      Int.floor (progress + baseSpeed type_ * dt)
  · have hframe : enemyFrame id type_ hp progress dt s =
        (progress + baseSpeed type_ * dt,
         handleEnemyReachEnd id { s with cache := cacheErase s.cache id }) := by
      unfold enemyFrame
      rw [if_pos hidx]
    refine ⟨by rw [hframe], rfl, fun _ => ?_, fun hlt => absurd hlt (not_lt.mpr hidx)⟩
    refine ⟨?_, ?_, ?_, ?_⟩
    · intro e he
      rw [hframe] at he
      simp only [handleEnemyReachEnd] at he
      simpa using (List.mem_filter.mp he).2
    · rw [hframe]
      simp only [handleEnemyReachEnd]
      rw [show (cacheErase (cacheErase s.cache id) id) =
        cacheErase (cacheErase s.cache id) id from rfl, cacheGet_cacheErase]
      simp
    · rw [hframe]
      rfl
    · intro pid sp hpos
      rw [hframe]
      have hnone : byIdGet ((handleEnemyReachEnd id
          { s with cache := cacheErase s.cache id }).enemies) id = none := by
        simp only [handleEnemyReachEnd]
        exact byIdGet_filter_ne s.enemies id
      constructor
      · simp [handleProjectileHit, hnone]
      · simp [handleProjectileHit, hnone]
  · refine ⟨?_, rfl, fun hge => absurd hge hidx, fun _ => ?_⟩
    · unfold enemyFrame
      rw [if_neg hidx]
    · unfold enemyFrame
      rw [if_neg hidx]
      show cacheGet (cacheSet s.cache id _) id = _
      rw [cacheGet_cacheSet]
      simp

theorem enemy_motion_and_removal_witness :
    (0 : ℚ) ≤ 0 ∧ (0 : ℚ) ≤ 1 ∧
    (enemyFrame "e1" "fast" 3 0 1 initState).1 = 0 + baseSpeed "fast" * 1 ∧
    cacheGet (enemyFrame "e1" "fast" 3 0 1 initState).2.cache "e1" =
      some { pos := (-16/5, 0, 16/5), hp := 3 } := by
  have h := enemy_motion_and_removal "e1" "fast" 3 0 1 initState
    (by norm_num) (by norm_num)
  have hfl : Int.floor ((0 : ℚ) + baseSpeed "fast" * 1) = 1 := by
    rw [show ((0 : ℚ) + baseSpeed "fast" * 1) = 6/5 by norm_num [baseSpeed]]
    rw [Int.floor_eq_iff]
    norm_num
  have hlt : Int.floor ((0 : ℚ) + baseSpeed "fast" * 1) <
      (PATH.length : Int) - 1 := by
    rw [hfl]
    simp [PATH]
  refine ⟨by norm_num, by norm_num, h.1, ?_⟩
  have h4 := h.2.2.2 hlt
  rw [h4, hfl]
  norm_num [PATH, lerpVec, lerp, baseSpeed]

/-- C7: a tower fires only when its cooldown accumulator has reached
max(0.12, fireRate(kind)); the accumulator is reset to zero exactly on a
shot (which requires an in-range target), while with no target found it
keeps the accumulated value, so the tower fires on the first later tick in
which a target is in range. -/
theorem tower_cooldown_gate (t : Tower) (lastShot dt : ℚ) (cache : PosCache)
    (hdt : 0 ≤ dt) :
    ((towerFrame t lastShot dt cache).2.isSome = true →
      max (12/100) ((TOWER_TYPES t.type).getD
        ⟨30, 35/10, 1, 8/10, none⟩).fireRate ≤ lastShot + dt ∧
      (towerFrame t lastShot dt cache).1 = 0 ∧
      (findClosest t.pos (((TOWER_TYPES t.type).getD
        ⟨30, 35/10, 1, 8/10, none⟩).range + t.rangeBonus)
        cache).isSome = true) ∧
    ((towerFrame t lastShot dt cache).2 = none →
      (towerFrame t lastShot dt cache).1 = lastShot + dt) ∧
    (max (12/100) ((TOWER_TYPES t.type).getD
        ⟨30, 35/10, 1, 8/10, none⟩).fireRate ≤ lastShot + dt →
      findClosest t.pos (((TOWER_TYPES t.type).getD
        ⟨30, 35/10, 1, 8/10, none⟩).range + t.rangeBonus) cache = none →
      (towerFrame t lastShot dt cache).1 = lastShot + dt ∧
      ∀ (dt2 : ℚ) (cache2 : PosCache), 0 ≤ dt2 →
        (findClosest t.pos (((TOWER_TYPES t.type).getD
          ⟨30, 35/10, 1, 8/10, none⟩).range + t.rangeBonus)
          cache2).isSome = true →
        (towerFrame t ((towerFrame t lastShot dt cache).1)
          dt2 cache2).2.isSome = true) := by
  by_cases hcool : lastShot + dt <
      max (12/100) ((TOWER_TYPES t.type).getD
        ⟨30, 35/10, 1, 8/10, none⟩).fireRate
  · have hframe : towerFrame t lastShot dt cache = (lastShot + dt, none) := by
      unfold towerFrame
      rw [if_pos hcool]
    refine ⟨?_, fun _ => by rw [hframe], fun hge _ => absurd hge (not_le.mpr hcool)⟩
    intro habs
    rw [hframe] at habs
    simp at habs
  · cases hfc : findClosest t.pos (((TOWER_TYPES t.type).getD
        ⟨30, 35/10, 1, 8/10, none⟩).range + t.rangeBonus) cache with
    | some req =>
      obtain ⟨cid, cpos, chp⟩ := req
      have hframe : towerFrame t lastShot dt cache =
          (0, some { fromTowerId := t.id,
                     fromPos := t.pos,
                     targetId := cid,
                     dmg := (if ((TOWER_TYPES t.type).getD
                       ⟨30, 35/10, 1, 8/10, none⟩).dmg = 0 then 1
                       else ((TOWER_TYPES t.type).getD
                         ⟨30, 35/10, 1, 8/10, none⟩).dmg) + t.dmgBonus,
                     splash := configSplash ((TOWER_TYPES t.type).getD
                       ⟨30, 35/10, 1, 8/10, none⟩) }) := by
        unfold towerFrame
        rw [if_neg hcool, hfc]
      refine ⟨fun _ => ⟨not_lt.mp hcool, by rw [hframe], rfl⟩, ?_, ?_⟩
      · intro habs
        rw [hframe] at habs
        exact Option.noConfusion habs
      · intro hge hnone
        exact Option.noConfusion hnone
    | none =>
      have hframe : towerFrame t lastShot dt cache =
          (lastShot + dt, none) := by
        unfold towerFrame
        rw [if_neg hcool, hfc]
      refine ⟨?_, fun _ => by rw [hframe], ?_⟩
      · intro habs
        rw [hframe] at habs
        simp at habs
      · intro hge _
        refine ⟨by rw [hframe], ?_⟩
        intro dt2 cache2 hdt2 hsome2
        rw [hframe]
        obtain ⟨req2, hreq2⟩ := Option.isSome_iff_exists.mp hsome2
        have hcool2 : ¬ (lastShot + dt + dt2 <
            max (12/100) ((TOWER_TYPES t.type).getD
              ⟨30, 35/10, 1, 8/10, none⟩).fireRate) := by
          push_neg
          calc max (12/100) ((TOWER_TYPES t.type).getD
              ⟨30, 35/10, 1, 8/10, none⟩).fireRate ≤ lastShot + dt := hge
            _ ≤ lastShot + dt + dt2 := by linarith
        show ((towerFrame t (lastShot + dt) dt2 cache2).2).isSome = true
        unfold towerFrame
        rw [if_neg hcool2, hreq2]
        obtain ⟨cid, cpos, chp⟩ := req2
        rfl

theorem tower_cooldown_gate_witness :
    (0 : ℚ) ≤ 1 ∧
    (towerFrame ⟨"t1", (0, 0, 0), "basic", 1, 0, 0⟩ 0 1
      [("e1", ⟨(1, 0, 1), 3⟩)]).1 = 0 ∧
    (towerFrame ⟨"t1", (0, 0, 0), "basic", 1, 0, 0⟩ 0 1
      [("e1", ⟨(1, 0, 1), 3⟩)]).2.isSome = true := by
  have h := tower_cooldown_gate ⟨"t1", (0, 0, 0), "basic", 1, 0, 0⟩ 0 1
    [("e1", ⟨(1, 0, 1), 3⟩)] (by norm_num)
  have hsome : (towerFrame ⟨"t1", (0, 0, 0), "basic", 1, 0, 0⟩ 0 1
      [("e1", ⟨(1, 0, 1), 3⟩)]).2.isSome = true := by
    norm_num [towerFrame, findClosest, distLe, distSq, TOWER_TYPES]
  exact ⟨by norm_num, (h.1 hsome).2.1, hsome⟩

theorem cacheSub_spawnEnemy (s : GameState) (id ty : String) (hp : Int)
    (hs : cacheSub s) : cacheSub (spawnEnemy id ty hp s) := by
  intro k hk
  obtain ⟨e, he, hid⟩ := hs k hk
  exact ⟨e, List.mem_append.mpr (Or.inl he), hid⟩

theorem cacheSub_reachEnd (s : GameState) (id : String)
    (hs : cacheSub s) : cacheSub (handleEnemyReachEnd id s) := by
  intro k hk
  have hk2 : (cacheGet (cacheErase s.cache id) k).isSome = true := hk
  rw [cacheGet_cacheErase] at hk2
  by_cases hki : k = id
  · simp [hki] at hk2
  · rw [if_neg hki] at hk2
    obtain ⟨e, he, hid⟩ := hs k hk2
    refine ⟨e, List.mem_filter.mpr ⟨he, ?_⟩, hid⟩
    simp only [decide_eq_true_eq]
    rw [hid]
    exact hki

theorem cacheSub_hit (s : GameState) (pid : String) (info : Option HitInfo)
    (hs : cacheSub s) : cacheSub (handleProjectileHit pid info s) := by
  cases info with
  | none => exact fun k hk => hs k hk
  | some hi =>
    cases hby : byIdGet s.enemies hi.targetId with
    | none =>
      have hc : handleProjectileHit pid (some hi) s =
          { s with projectiles :=
              s.projectiles.filter (fun p => ¬ p.id = pid) } := by
        simp [handleProjectileHit, hby]
      rw [hc]
      exact fun k hk => hs k hk
    | some e0 =>
      have hred : handleProjectileHit pid (some hi) s =
          { s with
            projectiles := s.projectiles.filter (fun p => ¬ p.id = pid),
            enemies := (applySplash (hitDamage pid s.projectiles) hi.splash
              hi.hitPos s.cache (subLast hi.targetId
                (hitDamage pid s.projectiles) s.enemies)).filter
                  (fun e => ¬ e.hp ≤ 0),
            cache := ((applySplash (hitDamage pid s.projectiles) hi.splash
              hi.hitPos s.cache (subLast hi.targetId
                (hitDamage pid s.projectiles) s.enemies)).filter
                  (fun e => e.hp ≤ 0)).foldl
                  (fun c e => cacheErase c e.id) s.cache,
            money := s.money + 10 * ((applySplash (hitDamage pid s.projectiles)
              hi.splash hi.hitPos s.cache (subLast hi.targetId
                (hitDamage pid s.projectiles) s.enemies)).filter
                  (fun e => e.hp ≤ 0)).length } := by
        simp [handleProjectileHit, hby]
      intro k hk
      rw [hred] at hk ⊢
      obtain ⟨hck, hdead⟩ := cacheGet_foldl_erase _ s.cache k hk
      obtain ⟨e, he, hid⟩ := hs k hck
      have hids : (applySplash (hitDamage pid s.projectiles) hi.splash
          hi.hitPos s.cache (subLast hi.targetId (hitDamage pid s.projectiles)
            s.enemies)).map Enemy.id = s.enemies.map Enemy.id := by
        rw [applySplash_map_id, subLast_map_id]
      have hkmem : k ∈ (applySplash (hitDamage pid s.projectiles) hi.splash
          hi.hitPos s.cache (subLast hi.targetId (hitDamage pid s.projectiles)
            s.enemies)).map Enemy.id := by
        rw [hids]
        exact hid ▸ List.mem_map_of_mem Enemy.id he
      obtain ⟨e2, he2, hid2⟩ := List.mem_map.mp hkmem
      rcases mem_filter_hp _ e2 he2 with hdead2 | hlive2
      · exact absurd hid2 (hdead e2 hdead2)
      · exact ⟨e2, hlive2, hid2⟩

theorem cacheSub_enemyFrame (s : GameState) (id ty : String) (hp : Int)
    (progress dt : ℚ) (hs : cacheSub s)
    (hmem : ∃ e, e ∈ s.enemies ∧ e.id = id) :
    cacheSub (enemyFrame id ty hp progress dt s).2 := by
  by_cases hidx : (PATH.length : Int) - 1 ≤
      Int.floor (progress + baseSpeed ty * dt)
  · have hframe : (enemyFrame id ty hp progress dt s).2 =
        handleEnemyReachEnd id { s with cache := cacheErase s.cache id } := by
      unfold enemyFrame
      rw [if_pos hidx]
    rw [hframe]
    apply cacheSub_reachEnd
    intro k hk
    have hk2 : (cacheGet (cacheErase s.cache id) k).isSome = true := hk
    rw [cacheGet_cacheErase] at hk2
    by_cases hki : k = id
    · simp [hki] at hk2
    · rw [if_neg hki] at hk2
      exact hs k hk2
  · intro k hk
    have hframe : (enemyFrame id ty hp progress dt s).2.cache =
        cacheSet s.cache id
          { pos := lerpVec
              (PATH.getD (Int.floor (progress + baseSpeed ty * dt)).toNat
                (0, 0, 0))
              (PATH.getD ((Int.floor (progress + baseSpeed ty * dt)).toNat + 1)
                (0, 0, 0))
              (progress + baseSpeed ty * dt -
                Int.floor (progress + baseSpeed ty * dt)),
            hp := hp } := by
      unfold enemyFrame
      rw [if_neg hidx]
    have hen : (enemyFrame id ty hp progress dt s).2.enemies = s.enemies := by
      unfold enemyFrame
      rw [if_neg hidx]
    rw [hframe, cacheGet_cacheSet] at hk
    rw [hen]
    by_cases hki : id = k
    · obtain ⟨e, he, hid⟩ := hmem
      exact ⟨e, he, hid.trans hki⟩
    · rw [if_neg hki] at hk
      exact hs k hk

/-- C3 (amended): a PositionCache entry always belongs to an enemy of the
live set — entry existence implies the enemy is alive, and every operation
(spawn, end-of-path removal, damage resolution, the per-enemy frame update)
preserves this — and a live on-path enemy owns an entry immediately after
its own frame update; a freshly spawned enemy, however, has no entry until
its first frame runs, so only this subset direction (not the biconditional
of the original claim) holds at every read point. -/
theorem cache_entries_match_live_set :
    (∀ (s : GameState) (id ty : String) (hp : Int),
      cacheSub s → cacheSub (spawnEnemy id ty hp s)) ∧
    (∀ (s : GameState) (id : String),
      cacheSub s → cacheSub (handleEnemyReachEnd id s)) ∧
    (∀ (s : GameState) (pid : String) (info : Option HitInfo),
      cacheSub s → cacheSub (handleProjectileHit pid info s)) ∧
    (∀ (s : GameState) (id ty : String) (hp : Int) (progress dt : ℚ),
      cacheSub s → (∃ e, e ∈ s.enemies ∧ e.id = id) →
      cacheSub (enemyFrame id ty hp progress dt s).2) ∧
    (∀ (s : GameState) (id ty : String) (hp : Int) (progress dt : ℚ),
      Int.floor (progress + baseSpeed ty * dt) < (PATH.length : Int) - 1 →
      (cacheGet (enemyFrame id ty hp progress dt s).2.cache id).isSome = true) := by
  refine ⟨cacheSub_spawnEnemy, cacheSub_reachEnd, cacheSub_hit,
    cacheSub_enemyFrame, ?_⟩
  intro s id ty hp progress dt hlt
  have hframe : (enemyFrame id ty hp progress dt s).2.cache =
      cacheSet s.cache id
        { pos := lerpVec
            (PATH.getD (Int.floor (progress + baseSpeed ty * dt)).toNat
              (0, 0, 0))
            (PATH.getD ((Int.floor (progress + baseSpeed ty * dt)).toNat + 1)
              (0, 0, 0))
            (progress + baseSpeed ty * dt -
              Int.floor (progress + baseSpeed ty * dt)),
          hp := hp } := by
    unfold enemyFrame
    rw [if_neg (not_le.mpr hlt)]
  rw [hframe, cacheGet_cacheSet]
  simp

theorem cache_entries_match_live_set_witness :
    cacheSub initState ∧ cacheSub (spawnEnemy "e1" "basic" 3 initState) := by
  have hinit : cacheSub initState := by
    intro k hk
    simp [initState, cacheGet] at hk
  exact ⟨hinit, cache_entries_match_live_set.1 initState "e1" "basic" 3 hinit⟩

/-- C3 counterexample: the biconditional invariant of the claim — an entry
exists if and only if the enemy is alive and on the path — holds in the
initial state but is broken by the very next reachable state, the one
reached by a single wave-scheduler spawn: the new enemy is in the live set
while the cache has no entry for it before its first frame update. -/
theorem cache_iff_invariant_counterexample :
    cacheIff initState ∧ ¬ cacheIff (spawnEnemy "e1" "basic" 3 initState) := by
  constructor
  · intro k
    constructor
    · intro hk
      simp [initState, cacheGet] at hk
    · rintro ⟨e, he, -⟩
      simp [initState] at he
  · intro h
    have h2 := (h "e1").mpr ⟨⟨"e1", "basic", 3⟩, by simp [spawnEnemy, initState], rfl⟩
    simp [spawnEnemy, initState, cacheGet] at h2

end TowerDefense
